import Mathlib

/-!
Shallow embedding of `src/processors.py`.

Modelling conventions:

* Python `dict`s (the record of one processor, the `processors` mapping, the
  attribute registry) are association lists without duplicate keys; `lookupKV`
  is `d[k]` (with `none` for `KeyError`), `setKV` is `d[k] = v` (replace in
  place, else append, matching insertion-ordered Python dicts).
* Dates are day ordinals (`Nat`).  `date.today()` is a parameter `today`;
  `strftime("%Y-%m-%d")` / `date.fromisoformat` become an injective rendering
  of the ordinal to a decimal string and its parse (`dateToIso`/`dateFromIso`):
  adding `timedelta(days=7)` is `+ 7` on ordinals and date comparison is
  ordinal comparison, exactly as for real ISO dates.  An unparsable "Updated"
  string raises `ValueError` in Python; here it yields the error `valueError`.
* An extractor `Callable[[str], str]` that can raise `IndexError` (a regex
  `findall(...)[0]` on a page with no match) is a `String → Option String`.
* The network is a parameter `net : String → HttpResponse`; an `HttpResponse`
  has a status and a payload, with `payload = none` standing for
  `aiohttp.ClientPayloadError` while reading `response.text()`.  The session
  is created with `raise_for_status=True` (line 69), so a status >= 400 raises
  before the body of `fetch_html`'s `async with` runs.
* Side effects (log lines that the claims mention, fetcher invocations, the
  printed table, the CSV write) are recorded in an ordered `Event` trace.  An
  uncaught Python exception is an `err` field of the result; the mapping
  mutated so far is kept, since Python mutates records in place.
* The CSV file is modelled as its parsed table `List (List String)` (header
  row followed by data rows); Python's `csv` writer/reader round-trips cell
  values exactly, so serialization is abstracted away.  A file that cannot be
  opened (`IOError`) is `none`.  The concurrent `asyncio.gather` is run as a
  sequential fold: each task only touches the record of its own identifier,
  and a hard failure aborts the remaining run (fail-fast), which the fold
  reflects.
-/

namespace Processors

/-- Extractor: page text to attribute value, `none` = `IndexError` (no regex match). -/
abbrev Extractor := String → Option String

/-- Python `d[k]` on an association list: first binding wins. -/
def lookupKV {α : Type} (k : String) : List (String × α) → Option α
  | [] => none
  | (k', v) :: rest => if k' = k then some v else lookupKV k rest

/-- Python `k in d`. -/
def hasKey {α : Type} (k : String) (l : List (String × α)) : Bool :=
  (lookupKV k l).isSome

/-- Python `d[k] = v`: replace the binding in place if the key exists, else append. -/
def setKV {α : Type} (k : String) (v : α) (l : List (String × α)) : List (String × α) :=
  if hasKey k l then l.map (fun p => if p.1 = k then (k, v) else p) else l ++ [(k, v)]

/-- One processor's record: attribute name to string value (a Python dict). -/
abbrev Record := List (String × String)

/-- Day-ordinal date rendered as a string, standing for `strftime("%Y-%m-%d")`. -/
def dateToIso (d : Nat) : String := toString d

/-- Digit-string parser (structural, so that concrete instances evaluate). -/
def parseDigits : List Char → Nat → Option Nat
  | [], acc => some acc
  | c :: cs, acc =>
    if 48 ≤ c.toNat ∧ c.toNat ≤ 57 then parseDigits cs (acc * 10 + (c.toNat - 48)) else none

/-- Parse of a stored "Updated" string back to a day ordinal, standing for
`date.fromisoformat`; `none` = `ValueError` on a malformed date string. -/
def dateFromIso (s : String) : Option Nat :=
  match s.data with
  | [] => none
  | l => parseDigits l 0

/-- The state of a `CPUList` object (`__init__` sets `changed_something = False`). -/
structure CPUList where
  processors : List (String × Record)
  attributes : List (String × Extractor)
  link_base : String
  changed_something : Bool := false

/-- Uncaught Python exceptions. -/
inductive Err where
  /-- Python `KeyError` from a dict subscript. -/
  | keyError : Err
  /-- Python `ValueError` from `date.fromisoformat`. -/
  | valueError : Err
  /-- Hard failure `aiohttp.ClientResponseError` from `raise_for_status` on a status >= 400. -/
  | httpError (status : Nat) : Err
  /-- exception escaping `print_table`. -/
  | printError : Err
  /-- exception escaping `write_csv`. -/
  | writeError : Err
deriving DecidableEq, Repr

/-- Observable events of a run, in order. -/
inductive Event where
  /-- Log line `logging.error` in the extractor loop (line 46): pattern missed. -/
  | patternError (key : String) (link : String) : Event
  /-- Log line `logging.error` for a display-name mismatch (line 50). -/
  | nameMismatch (newName oldName cpuId : String) : Event
  /-- Log line `logging.info("skipping update of ...")` (line 61): fresh record skipped. -/
  | skippedFresh (name : String) : Event
  /-- the fetcher (`fetch_html`) was invoked for this URL (line 64). -/
  | fetched (url : String) : Event
  /-- Marker that `update_dict` completed for this id: "Updated" stamped, flag set (lines 52-53). -/
  | merged (cpuId : String) : Event
  /-- the console table was printed (line 73). -/
  | printedTable (lines : List String) : Event
  /-- the CSV file was overwritten with this table (line 76). -/
  | wroteCsv (table : List (List String)) : Event
deriving DecidableEq, Repr

/-- An HTTP response: status plus payload; `payload = none` models a
`ClientPayloadError` when the body is read. -/
structure HttpResponse where
  status : Nat
  payload : Option String

/-- Embeds `fetch_html` (lines 22-35) under the `raise_for_status=True` session of
line 69: a status >= 400 raises `ClientResponseError`; a payload error is caught
and yields `None`; otherwise the body text is returned. -/
def fetch_html (resp : HttpResponse) : Except Err (Option String) :=
  if 400 ≤ resp.status then .error (.httpError resp.status)
  else
    match resp.payload with
    | none => .ok none
    | some html => .ok (some html)

/-- Result of one (possibly failing) stateful step: the state as mutated so far,
the escaped exception if any, and the emitted events in order. -/
structure StepOut where
  state : CPUList
  err : Option Err
  events : List Event

/-- Python `str.strip()`: drop whitespace from both ends (structural on the
character list, so that concrete instances evaluate). -/
def pyStrip (s : String) : String :=
  ⟨((s.data.dropWhile Char.isWhitespace).reverse.dropWhile Char.isWhitespace).reverse⟩

/-- The value stored for one attribute: `method(response_text).strip()`, or the
placeholder on an `IndexError`. -/
def extractResult (method : Extractor) (text : String) : String :=
  match method text with
  | some v => pyStrip v
  | none => "-"

/-- The `for key, method in self.attributes.items()` loop of `update_dict`
(lines 42-47): each attribute is written independently; a missed pattern is
caught, logged and replaced by "-". -/
def extractLoop (attrs : List (String × Extractor)) (link : String) (text : String)
    (proc : Record) : Record × List Event :=
  match attrs with
  | [] => (proc, [])
  | (key, method) :: rest =>
    let step : Record × List Event :=
      match method text with
      | some v => (setKV key (pyStrip v) proc, [])
      | none => (setKV key "-" proc, [Event.patternError key link])
    let tail := extractLoop rest link text step.1
    (tail.1, step.2 ++ tail.2)

/-- Embeds `update_dict` (lines 37-53).  A falsy `response_text` (absent or
empty) is a no-op.  Otherwise every registered extractor runs with per-attribute
failure isolation, a display-name mismatch is logged (not fatal), "Updated" is
stamped with today's date and the changed flag is set. -/
def update_dict (st : CPUList) (cpu_id : String) (response_text : Option String)
    (today : Nat) : StepOut :=
  match response_text with
  | none => ⟨st, none, []⟩
  | some text =>
    if text = "" then ⟨st, none, []⟩
    else
      match lookupKV cpu_id st.processors with
      | none => ⟨st, some .keyError, []⟩
      | some processor0 =>
        match lookupKV "Name" processor0 with
        | none => ⟨st, some .keyError, []⟩
        | some cpu_name =>
          let ex := extractLoop st.attributes (st.link_base ++ cpu_id) text processor0
          match lookupKV "Name" ex.1 with
          | none =>
            ⟨{ st with processors := setKV cpu_id ex.1 st.processors }, some .keyError, ex.2⟩
          | some newName =>
            let evs := ex.2 ++
              (if cpu_name ≠ newName then [Event.nameMismatch newName cpu_name cpu_id] else [])
            let proc1 := setKV "Updated" (dateToIso today) ex.1
            let st1 : CPUList :=
              { st with processors := setKV cpu_id proc1 st.processors
                        changed_something := true }
            ⟨st1, none, evs ++ [Event.merged cpu_id]⟩

/-- The fetch-then-merge branch of `update_one` (lines 63-65). -/
def fetch_and_merge (st : CPUList) (cpu_id link : String) (net : String → HttpResponse)
    (today : Nat) : StepOut :=
  match fetch_html (net link) with
  | .error e => ⟨st, some e, [Event.fetched link]⟩
  | .ok body =>
    let r := update_dict st cpu_id body today
    ⟨r.state, r.err, Event.fetched link :: r.events⟩

/-- Embeds `update_one` (lines 55-65): store the canonical link, then either skip
a fresh record (its "Updated" date plus 7 days is past today) or fetch and merge. -/
def update_one (st : CPUList) (cpu_id : String) (net : String → HttpResponse)
    (today : Nat) : StepOut :=
  match lookupKV cpu_id st.processors with
  | none => ⟨st, some .keyError, []⟩
  | some processor0 =>
    let link := st.link_base ++ cpu_id
    let processor := setKV "Link" link processor0
    let st1 := { st with processors := setKV cpu_id processor st.processors }
    match lookupKV "Updated" processor with
    | some s =>
      match dateFromIso s with
      | none => ⟨st1, some .valueError, []⟩
      | some d =>
        if today < d + 7 then
          match lookupKV "Name" processor with
          | none => ⟨st1, some .keyError, []⟩
          | some name => ⟨st1, none, [Event.skippedFresh name]⟩
        else fetch_and_merge st1 cpu_id link net today
    | none => fetch_and_merge st1 cpu_id link net today

/-- Run an option-valued function over a list, failing if any element fails
(the per-element loop bodies of `write_csv` and `print_table`). -/
def traverseOpt {α β : Type} (f : α → Option β) : List α → Option (List β)
  | [] => some []
  | x :: xs =>
    match f x, traverseOpt f xs with
    | some y, some ys => some (y :: ys)
    | _, _ => none

/-- The row-by-row fold of `prefill_with_csv`; the first uncaught exception
aborts. -/
def foldRowsOpt {α β : Type} (step : α → β → Option α) : α → List β → Option α
  | a, [] => some a
  | a, b :: bs =>
    match step a b with
    | none => none
    | some a2 => foldRowsOpt step a2 bs

/-- The row `csv.DictWriter` writes for one record: the record's value for each
header column in order, with `restval ""` for a missing key. -/
def csvRow (header : List String) (rec : Record) : List String :=
  header.map (fun h => (lookupKV h rec).getD "")

/-- Embeds `write_csv` (lines 79-84) as the table it writes: header row then one
row per record in mapping order.  A record with a key outside the header makes
`csv.DictWriter.writerow` raise `ValueError`, here `none`. -/
def write_csv (header : List String) (processors : List (String × Record)) :
    Option (List (List String)) :=
  match traverseOpt (fun p =>
      if p.2.all (fun kv => decide (kv.1 ∈ header)) then some (csvRow header p.2)
      else none) processors with
  | none => none
  | some rows => some (header :: rows)

/-- Column width in `print_table` (lines 90-91): the longest value of that column
over all records, at least the header's length.  `max()` of an empty mapping
raises `ValueError`; a record without the key raises `KeyError`; both are `none`. -/
def colWidth (key : String) (processors : List (String × Record)) : Option Nat :=
  match traverseOpt (fun p => (lookupKV key p.2).map String.length) processors with
  | none => none
  | some [] => none
  | some (l :: ls) => some (max (ls.foldl max l) key.length)

/-- A run of `n` spaces (Python pads with spaces). -/
def spaces (n : Nat) : String := String.mk (List.replicate n ' ')

/-- Python format `{:w}` on a string: left aligned, padded to width `w`. -/
def padLeftAlign (s : String) (w : Nat) : String := s ++ spaces (w - s.length)

/-- Python format `{:>w}`: right aligned. -/
def padRightAlign (s : String) (w : Nat) : String := spaces (w - s.length) ++ s

/-- Python format `{:^w}`: centered, the extra space going to the right. -/
def padCenter (s : String) (w : Nat) : String :=
  let total := w - s.length
  spaces (total / 2) ++ s ++ spaces (total - total / 2)

/-- One formatted line of `print_table`: first column left aligned with a
trailing separator space, last column right aligned, interior columns centered
(lines 92-97). -/
def formatCells : Bool → List (Nat × String) → String
  | _, [] => ""
  | isFirst, [(w, s)] => if isFirst then padLeftAlign s w ++ " " else padRightAlign s w
  | isFirst, (w, s) :: rest =>
    (if isFirst then padLeftAlign s w else padCenter s w) ++ " " ++ formatCells false rest

/-- Embeds `print_table` (lines 87-101) as the list of printed lines; `none` when
a width computation raises (empty mapping, or a record missing a column). -/
def print_table (header : List String) (processors : List (String × Record)) :
    Option (List String) :=
  match traverseOpt (fun key => colWidth key processors) header with
  | none => none
  | some widths =>
    match traverseOpt (fun p => traverseOpt (fun key => lookupKV key p.2) header) processors with
    | none => none
    | some rows =>
      some (formatCells true (widths.zip header) ::
        rows.map (fun row => formatCells true (widths.zip row)))

/-- Python `list.index`, `none` = `ValueError`. -/
def idxOf? (x : String) : List String → Option Nat
  | [] => none
  | y :: ys => if y = x then some 0 else (idxOf? x ys).map (· + 1)

/-- The per-row assignment loop of `prefill_with_csv` (lines 113-114):
`processors[key][header[i]] = item` for each cell of the row. -/
def applyRow (header : List String) (row : List String) (rec : Record) : Record :=
  (header.zip row).foldl (fun r p => setKV p.1 p.2 r) rec

/-- The body of the row loop of `prefill_with_csv` (lines 110-114): recover the
identifier from the "Link" cell, and if it is a known key, copy every cell of
the row onto that record; a row longer than the header raises `IndexError`. -/
def prefillStep (header : List String) (link_base : String) (link_index : Nat)
    (procs : List (String × Record)) (row : List String) :
    Option (List (String × Record)) :=
  match row.get? link_index with
  | none => none
  | some linkVal =>
    let key := linkVal.drop link_base.length
    if hasKey key procs then
      if row.length ≤ header.length then
        some (setKV key (applyRow header row ((lookupKV key procs).getD [])) procs)
      else none
    else some procs

/-- Embeds `prefill_with_csv` (lines 104-117) on the parsed file.  `none` input is
an `IOError` (caught: the seed is returned unchanged).  An empty file makes the
header read raise `StopIteration`; a header without "Link" raises `ValueError`; a
row shorter than the link index or longer than the header raises `IndexError` —
all uncaught, modelled as result `none`.  The identifier of a row is its "Link"
cell with the first `len(link_base)` characters stripped; rows whose identifier
is not a known key are dropped. -/
def prefill_with_csv (tableFile : Option (List (List String)))
    (processors : List (String × Record)) (link_base : String) :
    Option (List (String × Record)) :=
  match tableFile with
  | none => some processors
  | some [] => none
  | some (header :: rows) =>
    match idxOf? "Link" header with
    | none => none
    | some link_index =>
      foldRowsOpt (prefillStep header link_base link_index) processors rows

/-- The `for cpu_id in self.processors` crawl of `bulk_crawl_and_write` (lines
70-71), run as a sequential fold: the first uncaught exception aborts the rest
(`asyncio.gather` fail-fast). -/
def runAll (net : String → HttpResponse) (today : Nat) (st : CPUList) :
    List String → StepOut
  | [] => ⟨st, none, []⟩
  | cpu_id :: rest =>
    let r := update_one st cpu_id net today
    match r.err with
    | some e => ⟨r.state, some e, r.events⟩
    | none =>
      let r2 := runAll net today r.state rest
      ⟨r2.state, r2.err, r.events ++ r2.events⟩

/-- Embeds `bulk_crawl_and_write` (lines 67-76): crawl every identifier, then
print the console table (attribute columns only), then — only if anything
changed — overwrite the CSV (attribute columns plus "Link" and "Updated"). -/
def bulk_crawl_and_write (st : CPUList) (net : String → HttpResponse) (today : Nat) :
    StepOut :=
  let r := runAll net today st (st.processors.map Prod.fst)
  match r.err with
  | some e => ⟨r.state, some e, r.events⟩
  | none =>
    match print_table (r.state.attributes.map Prod.fst) r.state.processors with
    | none => ⟨r.state, some .printError, r.events⟩
    | some lines =>
      let evs := r.events ++ [Event.printedTable lines]
      if r.state.changed_something then
        match write_csv (r.state.attributes.map Prod.fst ++ ["Link", "Updated"])
            r.state.processors with
        | none => ⟨r.state, some .writeError, evs⟩
        | some tbl => ⟨r.state, none, evs ++ [Event.wroteCsv tbl]⟩
      else ⟨r.state, none, evs⟩

/-- Number of fetcher invocations recorded in a trace. -/
def countFetched (events : List Event) : Nat :=
  (events.filter fun e => match e with | .fetched _ => true | _ => false).length

/-- Whether a trace event marks a completed merge. -/
def isMergedEvent (e : Event) : Bool :=
  match e with | .merged _ => true | _ => false

/-- Whether a trace event is run output (console table or CSV write). -/
def isOutputEvent (e : Event) : Bool :=
  match e with | .printedTable _ => true | .wroteCsv _ => true | _ => false

section KVLemmas

variable {α : Type}

theorem lookupKV_cons (k k' : String) (v : α) (l : List (String × α)) :
    lookupKV k ((k', v) :: l) = if k' = k then some v else lookupKV k l := rfl

theorem hasKey_cons (k k' : String) (v : α) (l : List (String × α)) :
    hasKey k ((k', v) :: l) = if k' = k then true else hasKey k l := by
  unfold hasKey
  rw [lookupKV_cons]
  by_cases h : k' = k <;> simp [h]

theorem lookupKV_map_replace_self (k : String) (v : α) (l : List (String × α)) :
    lookupKV k (l.map (fun p => if p.1 = k then (k, v) else p)) =
      if hasKey k l then some v else none := by
  induction l with
  | nil => simp [lookupKV, hasKey]
  | cons hd tl ih =>
    obtain ⟨k₀, v₀⟩ := hd
    by_cases h₀ : k₀ = k
    · subst h₀
      simp [lookupKV_cons, hasKey_cons]
    · rw [List.map_cons, if_neg (by simpa using h₀)]
      rw [lookupKV_cons, if_neg h₀, hasKey_cons, if_neg h₀, ih]

theorem lookupKV_map_replace_ne {k k' : String} (h : k' ≠ k) (v : α) (l : List (String × α)) :
    lookupKV k' (l.map (fun p => if p.1 = k then (k, v) else p)) = lookupKV k' l := by
  induction l with
  | nil => rfl
  | cons hd tl ih =>
    obtain ⟨k₀, v₀⟩ := hd
    by_cases h₀ : k₀ = k
    · subst h₀
      rw [List.map_cons, if_pos rfl, lookupKV_cons, if_neg (fun hh => h hh.symm),
        lookupKV_cons, if_neg (fun hh => h hh.symm), ih]
    · rw [List.map_cons, if_neg (by simpa using h₀), lookupKV_cons, lookupKV_cons]
      by_cases h₁ : k₀ = k'
      · simp [h₁]
      · rw [if_neg h₁, if_neg h₁, ih]

theorem keys_map_replace (k : String) (v : α) (l : List (String × α)) :
    (l.map (fun p => if p.1 = k then (k, v) else p)).map Prod.fst = l.map Prod.fst := by
  induction l with
  | nil => rfl
  | cons hd tl ih =>
    obtain ⟨k₀, v₀⟩ := hd
    by_cases h₀ : k₀ = k
    · subst h₀; simp [ih]
    · simp only [List.map_cons, if_neg (by simpa using h₀ : ¬((k₀, v₀).1 = k))]
      rw [ih]

theorem lookupKV_eq_none_of_not_hasKey {k : String} {l : List (String × α)}
    (h : ¬hasKey k l = true) : lookupKV k l = none := by
  unfold hasKey at h
  cases hl : lookupKV k l with
  | none => rfl
  | some v' => rw [hl] at h; simp at h

theorem lookupKV_append (k : String) (l₁ l₂ : List (String × α)) :
    lookupKV k (l₁ ++ l₂) =
      match lookupKV k l₁ with
      | some v => some v
      | none => lookupKV k l₂ := by
  induction l₁ with
  | nil => simp [lookupKV]
  | cons hd tl ih =>
    obtain ⟨k', v'⟩ := hd
    by_cases h : k' = k <;> simp [lookupKV_cons, h, ih]

theorem lookupKV_setKV_self (k : String) (v : α) (l : List (String × α)) :
    lookupKV k (setKV k v l) = some v := by
  unfold setKV
  by_cases h : hasKey k l
  · simp [h, lookupKV_map_replace_self]
  · simp only [h, Bool.false_eq_true, ite_false]
    rw [lookupKV_append, lookupKV_eq_none_of_not_hasKey h]
    simp [lookupKV]

theorem lookupKV_setKV_ne {k k' : String} (h : k' ≠ k) (v : α) (l : List (String × α)) :
    lookupKV k' (setKV k v l) = lookupKV k' l := by
  unfold setKV
  by_cases hk : hasKey k l
  · simp only [hk, if_true]
    exact lookupKV_map_replace_ne h v l
  · simp only [hk, Bool.false_eq_true, ite_false]
    rw [lookupKV_append]
    cases hl : lookupKV k' l with
    | some v' => simp
    | none =>
      show lookupKV k' ((k, v) :: []) = none
      rw [lookupKV_cons, if_neg (fun hh => h hh.symm)]
      rfl

theorem hasKey_setKV_self (k : String) (v : α) (l : List (String × α)) :
    hasKey k (setKV k v l) = true := by
  unfold hasKey
  rw [lookupKV_setKV_self]
  rfl

theorem hasKey_setKV_ne {k k' : String} (h : k' ≠ k) (v : α) (l : List (String × α)) :
    hasKey k' (setKV k v l) = hasKey k' l := by
  unfold hasKey
  rw [lookupKV_setKV_ne h]

theorem isSome_lookupKV_setKV (k k' : String) (v : α) (l : List (String × α))
    (h : (lookupKV k' l).isSome = true) : (lookupKV k' (setKV k v l)).isSome = true := by
  by_cases hk : k' = k
  · subst hk; rw [lookupKV_setKV_self]; rfl
  · rw [lookupKV_setKV_ne hk]; exact h

theorem keys_setKV_of_hasKey (k : String) (v : α) (l : List (String × α))
    (h : hasKey k l = true) : (setKV k v l).map Prod.fst = l.map Prod.fst := by
  unfold setKV
  simp only [h, if_true]
  exact keys_map_replace k v l

end KVLemmas

end Processors

namespace Processors

section ExtractLemmas

theorem extractLoop_keeps_isSome (attrs : List (String × Extractor)) (link text : String)
    (proc : Record) (k : String) (h : (lookupKV k proc).isSome = true) :
    (lookupKV k (extractLoop attrs link text proc).1).isSome = true := by
  induction attrs generalizing proc with
  | nil => exact h
  | cons hd tl ih =>
    obtain ⟨key, method⟩ := hd
    unfold extractLoop
    cases hm : method text with
    | some v =>
      simp only [hm]
      exact ih _ (isSome_lookupKV_setKV key k _ proc h)
    | none =>
      simp only [hm]
      exact ih _ (isSome_lookupKV_setKV key k _ proc h)

theorem extractLoop_lookup_not_mem {attrs : List (String × Extractor)} {k : String}
    (h : k ∉ attrs.map Prod.fst) (link text : String) (proc : Record) :
    lookupKV k (extractLoop attrs link text proc).1 = lookupKV k proc := by
  induction attrs generalizing proc with
  | nil => rfl
  | cons hd tl ih =>
    obtain ⟨key, method⟩ := hd
    have hk : k ≠ key := by
      intro hh; exact h (by simp [hh])
    have htl : k ∉ tl.map Prod.fst := by
      intro hh; exact h (by simp [hh])
    unfold extractLoop
    cases hm : method text with
    | some v => simp only [hm]; rw [ih htl, lookupKV_setKV_ne hk]
    | none => simp only [hm]; rw [ih htl, lookupKV_setKV_ne hk]

theorem extractLoop_lookup_mem {attrs : List (String × Extractor)}
    (hnodup : (attrs.map Prod.fst).Nodup) {k : String} {f : Extractor}
    (hmem : (k, f) ∈ attrs) (link text : String) (proc : Record) :
    lookupKV k (extractLoop attrs link text proc).1 = some (extractResult f text) := by
  induction attrs generalizing proc with
  | nil => cases hmem
  | cons hd tl ih =>
    obtain ⟨key, method⟩ := hd
    rcases List.mem_cons.mp hmem with heq | htl
    · cases heq
      have hk : k ∉ tl.map Prod.fst := by
        rw [List.map_cons] at hnodup
        exact (List.nodup_cons.mp hnodup).1
      unfold extractLoop
      cases hm : f text with
      | some v =>
        simp only [hm]
        rw [extractLoop_lookup_not_mem hk, lookupKV_setKV_self]
        simp [extractResult, hm]
      | none =>
        simp only [hm]
        rw [extractLoop_lookup_not_mem hk, lookupKV_setKV_self]
        simp [extractResult, hm]
    · have hnd : (tl.map Prod.fst).Nodup := by
        rw [List.map_cons] at hnodup
        exact (List.nodup_cons.mp hnodup).2
      unfold extractLoop
      cases hm : method text with
      | some v => simp only [hm]; exact ih hnd htl _
      | none => simp only [hm]; exact ih hnd htl _

theorem extractLoop_events (attrs : List (String × Extractor)) (link text : String)
    (proc : Record) :
    ∀ e ∈ (extractLoop attrs link text proc).2, ∃ key, e = Event.patternError key link := by
  induction attrs generalizing proc with
  | nil => intro e he; cases he
  | cons hd tl ih =>
    obtain ⟨key, method⟩ := hd
    unfold extractLoop
    cases hm : method text with
    | some v =>
      simp only [hm]
      intro e he
      exact ih _ e (by simpa using he)
    | none =>
      simp only [hm]
      intro e he
      rcases List.mem_cons.mp (by simpa using he) with h | h
      · exact ⟨key, h⟩
      · exact ih _ e h

end ExtractLemmas

section UpdateLemmas

theorem update_dict_events (st : CPUList) (cpu_id : String) (body : Option String)
    (today : Nat) :
    ∀ e ∈ (update_dict st cpu_id body today).events,
      (∃ k l, e = Event.patternError k l) ∨ (∃ a b c, e = Event.nameMismatch a b c) ∨
        e = Event.merged cpu_id := by
  intro e he
  cases body with
  | none => simp [update_dict] at he
  | some text =>
    by_cases ht : text = ""
    · simp [update_dict, ht] at he
    · cases hl : lookupKV cpu_id st.processors with
      | none => simp [update_dict, if_neg ht, hl] at he
      | some p0 =>
        cases hn : lookupKV "Name" p0 with
        | none => simp [update_dict, if_neg ht, hl, hn] at he
        | some nm =>
          cases hx : lookupKV "Name"
              (extractLoop st.attributes (st.link_base ++ cpu_id) text p0).1 with
          | none =>
            simp only [update_dict, if_neg ht, hl, hn, hx] at he
            obtain ⟨k, hk⟩ := extractLoop_events _ _ _ _ e he
            exact Or.inl ⟨k, _, hk⟩
          | some newName =>
            simp only [update_dict, if_neg ht, hl, hn, hx, List.mem_append] at he
            rcases he with (he | he) | he
            · obtain ⟨k, hk⟩ := extractLoop_events _ _ _ _ e he
              exact Or.inl ⟨k, _, hk⟩
            · by_cases hne : nm ≠ newName
              · simp only [if_pos hne, List.mem_singleton] at he
                exact Or.inr (Or.inl ⟨newName, nm, cpu_id, he⟩)
              · simp only [if_neg hne] at he
                cases he
            · simp only [List.mem_singleton] at he
              exact Or.inr (Or.inr he)

theorem update_dict_changed (st : CPUList) (cpu_id : String) (body : Option String)
    (today : Nat) :
    (update_dict st cpu_id body today).state.changed_something =
      (st.changed_something || (update_dict st cpu_id body today).events.any isMergedEvent) := by
  cases body with
  | none => simp [update_dict]
  | some text =>
    by_cases ht : text = ""
    · simp [update_dict, ht]
    · cases hl : lookupKV cpu_id st.processors with
      | none => simp [update_dict, if_neg ht, hl]
      | some p0 =>
        cases hn : lookupKV "Name" p0 with
        | none => simp [update_dict, if_neg ht, hl, hn]
        | some nm =>
          cases hx : lookupKV "Name"
              (extractLoop st.attributes (st.link_base ++ cpu_id) text p0).1 with
          | none =>
            have hall : ((extractLoop st.attributes (st.link_base ++ cpu_id) text p0).2).any
                isMergedEvent = false := by
              rw [List.any_eq_false]
              intro e he
              obtain ⟨k, hk⟩ := extractLoop_events _ _ _ _ e he
              subst hk; simp [isMergedEvent]
            simp [update_dict, if_neg ht, hl, hn, hx, hall]
          | some newName =>
            simp [update_dict, if_neg ht, hl, hn, hx, List.any_append, isMergedEvent]

theorem update_dict_no_output (st : CPUList) (cpu_id : String) (body : Option String)
    (today : Nat) :
    ∀ e ∈ (update_dict st cpu_id body today).events, isOutputEvent e = false := by
  intro e he
  rcases update_dict_events st cpu_id body today e he with ⟨k, l, h⟩ | ⟨a, b, c, h⟩ | h <;>
    (subst h; rfl)

theorem countFetched_eq_zero {l : List Event}
    (h : ∀ e ∈ l, (match e with | Event.fetched _ => true | _ => false) = false) :
    countFetched l = 0 := by
  unfold countFetched
  rw [List.length_eq_zero, List.filter_eq_nil_iff]
  intro e he
  simp [h e he]

theorem update_dict_countFetched (st : CPUList) (cpu_id : String) (body : Option String)
    (today : Nat) : countFetched (update_dict st cpu_id body today).events = 0 := by
  apply countFetched_eq_zero
  intro e he
  rcases update_dict_events st cpu_id body today e he with ⟨k, l, h⟩ | ⟨a, b, c, h⟩ | h <;>
    (subst h; rfl)

theorem fetch_and_merge_events (st : CPUList) (cpu_id link : String)
    (net : String → HttpResponse) (today : Nat) :
    ∀ e ∈ (fetch_and_merge st cpu_id link net today).events,
      e = Event.fetched link ∨ (∃ k l, e = Event.patternError k l) ∨
        (∃ a b c, e = Event.nameMismatch a b c) ∨ e = Event.merged cpu_id := by
  intro e he
  unfold fetch_and_merge at he
  cases hf : fetch_html (net link) with
  | error err =>
    simp only [hf, List.mem_singleton] at he
    exact Or.inl he
  | ok body =>
    simp only [hf, List.mem_cons] at he
    rcases he with he | he
    · exact Or.inl he
    · exact Or.inr (update_dict_events st cpu_id body today e he)

theorem fetch_and_merge_changed (st : CPUList) (cpu_id link : String)
    (net : String → HttpResponse) (today : Nat) :
    (fetch_and_merge st cpu_id link net today).state.changed_something =
      (st.changed_something ||
        (fetch_and_merge st cpu_id link net today).events.any isMergedEvent) := by
  unfold fetch_and_merge
  cases hf : fetch_html (net link) with
  | error err => simp [isMergedEvent]
  | ok body =>
    simp only [List.any_cons]
    rw [update_dict_changed st cpu_id body today]
    simp [isMergedEvent]

theorem fetch_and_merge_countFetched (st : CPUList) (cpu_id link : String)
    (net : String → HttpResponse) (today : Nat) :
    countFetched (fetch_and_merge st cpu_id link net today).events = 1 := by
  unfold fetch_and_merge
  cases hf : fetch_html (net link) with
  | error err => rfl
  | ok body =>
    simp only [countFetched, List.filter_cons]
    have h0 := update_dict_countFetched st cpu_id body today
    unfold countFetched at h0
    simp [h0]

theorem update_one_events (st : CPUList) (cpu_id : String) (net : String → HttpResponse)
    (today : Nat) :
    ∀ e ∈ (update_one st cpu_id net today).events,
      e = Event.fetched (st.link_base ++ cpu_id) ∨ (∃ n, e = Event.skippedFresh n) ∨
        (∃ k l, e = Event.patternError k l) ∨ (∃ a b c, e = Event.nameMismatch a b c) ∨
        e = Event.merged cpu_id := by
  intro e he
  unfold update_one at he
  cases hl : lookupKV cpu_id st.processors with
  | none => simp [hl] at he
  | some p0 =>
    simp only [hl] at he
    cases hu : lookupKV "Updated" (setKV "Link" (st.link_base ++ cpu_id) p0) with
    | some s =>
      simp only [hu] at he
      cases hd : dateFromIso s with
      | none => simp only [hd] at he; cases he
      | some d =>
        simp only [hd] at he
        by_cases hfresh : today < d + 7
        · simp only [if_pos hfresh] at he
          cases hn : lookupKV "Name" (setKV "Link" (st.link_base ++ cpu_id) p0) with
          | none => simp [hn] at he
          | some name =>
            simp only [hn, List.mem_singleton] at he
            exact Or.inr (Or.inl ⟨name, he⟩)
        · simp only [if_neg hfresh] at he
          rcases fetch_and_merge_events _ _ _ _ _ e he with h | h
          · exact Or.inl h
          · exact Or.inr (Or.inr h)
    | none =>
      simp only [hu] at he
      rcases fetch_and_merge_events _ _ _ _ _ e he with h | h
      · exact Or.inl h
      · exact Or.inr (Or.inr h)

theorem update_one_changed (st : CPUList) (cpu_id : String) (net : String → HttpResponse)
    (today : Nat) :
    (update_one st cpu_id net today).state.changed_something =
      (st.changed_something || (update_one st cpu_id net today).events.any isMergedEvent) := by
  unfold update_one
  cases hl : lookupKV cpu_id st.processors with
  | none => simp
  | some p0 =>
    cases hu : lookupKV "Updated" (setKV "Link" (st.link_base ++ cpu_id) p0) with
    | some s =>
      simp only [hu]
      cases hd : dateFromIso s with
      | none => simp [hd]
      | some d =>
        simp only [hd]
        by_cases hfresh : today < d + 7
        · simp only [if_pos hfresh]
          cases hn : lookupKV "Name" (setKV "Link" (st.link_base ++ cpu_id) p0) with
          | none => simp [hn]
          | some name => simp [hn, isMergedEvent]
        · simp only [if_neg hfresh]
          exact fetch_and_merge_changed _ _ _ _ _
    | none =>
      simp only [hu]
      exact fetch_and_merge_changed _ _ _ _ _

theorem update_one_no_output (st : CPUList) (cpu_id : String) (net : String → HttpResponse)
    (today : Nat) :
    ∀ e ∈ (update_one st cpu_id net today).events, isOutputEvent e = false := by
  intro e he
  rcases update_one_events st cpu_id net today e he with h | ⟨n, h⟩ | ⟨k, l, h⟩ | ⟨a, b, c, h⟩ | h <;>
    (subst h; rfl)

theorem runAll_changed (net : String → HttpResponse) (today : Nat) (st : CPUList)
    (ids : List String) :
    (runAll net today st ids).state.changed_something =
      (st.changed_something || (runAll net today st ids).events.any isMergedEvent) := by
  induction ids generalizing st with
  | nil => simp [runAll]
  | cons cpu_id rest ih =>
    unfold runAll
    cases herr : (update_one st cpu_id net today).err with
    | some e =>
      simp only [herr]
      exact update_one_changed st cpu_id net today
    | none =>
      simp only [herr, List.any_append]
      rw [ih, update_one_changed st cpu_id net today]
      simp [Bool.or_assoc]

theorem runAll_no_output (net : String → HttpResponse) (today : Nat) (st : CPUList)
    (ids : List String) :
    ∀ e ∈ (runAll net today st ids).events, isOutputEvent e = false := by
  induction ids generalizing st with
  | nil => intro e he; cases he
  | cons cpu_id rest ih =>
    intro e he
    unfold runAll at he
    cases herr : (update_one st cpu_id net today).err with
    | some err =>
      simp only [herr] at he
      exact update_one_no_output st cpu_id net today e he
    | none =>
      simp only [herr, List.mem_append] at he
      rcases he with he | he
      · exact update_one_no_output st cpu_id net today e he
      · exact ih _ e he

end UpdateLemmas
theorem update_dict_keeps_link (st : CPUList) (cpu_id : String) (body : Option String)
    (today : Nat) (proc : Record) (L : String)
    (hattr : "Link" ∉ st.attributes.map Prod.fst)
    (hproc : lookupKV cpu_id st.processors = some proc)
    (hlink : lookupKV "Link" proc = some L) :
    ∃ proc', lookupKV cpu_id (update_dict st cpu_id body today).state.processors = some proc' ∧
      lookupKV "Link" proc' = some L := by
  cases body with
  | none => exact ⟨proc, by simp [update_dict, hproc], hlink⟩
  | some text =>
    by_cases ht : text = ""
    · exact ⟨proc, by simp [update_dict, ht, hproc], hlink⟩
    · have hexlink : lookupKV "Link"
          (extractLoop st.attributes (st.link_base ++ cpu_id) text proc).1 = some L := by
        rw [extractLoop_lookup_not_mem hattr]
        exact hlink
      cases hn : lookupKV "Name" proc with
      | none =>
        refine ⟨proc, ?_, hlink⟩
        simp [update_dict, if_neg ht, hproc, hn]
      | some nm =>
        cases hx : lookupKV "Name"
            (extractLoop st.attributes (st.link_base ++ cpu_id) text proc).1 with
        | none =>
          refine ⟨(extractLoop st.attributes (st.link_base ++ cpu_id) text proc).1, ?_, hexlink⟩
          simp only [update_dict, if_neg ht, hproc, hn, hx]
          rw [lookupKV_setKV_self]
        | some newName =>
          refine ⟨setKV "Updated" (dateToIso today)
            (extractLoop st.attributes (st.link_base ++ cpu_id) text proc).1, ?_, ?_⟩
          · simp only [update_dict, if_neg ht, hproc, hn, hx]
            rw [lookupKV_setKV_self]
          · rw [lookupKV_setKV_ne (by decide)]
            exact hexlink

/-- C8: `update_one` always stores the canonical URL `link_base ++ cpu_id` in the
record's "Link" field — in the fresh-skip branch, in the fetch-and-merge branch,
and even when an exception escapes (the mutation has already happened).  The
hypothesis that "Link" is not a registered attribute name reflects the actual
registry, whose extractors would otherwise overwrite the field. -/
theorem claim_C8_link_always_stored (st : CPUList) (cpu_id : String)
    (net : String → HttpResponse) (today : Nat)
    (hkey : hasKey cpu_id st.processors = true)
    (hattr : "Link" ∉ st.attributes.map Prod.fst) :
    ∃ proc', lookupKV cpu_id (update_one st cpu_id net today).state.processors = some proc' ∧
      lookupKV "Link" proc' = some (st.link_base ++ cpu_id) := by
  unfold hasKey at hkey
  obtain ⟨proc, hproc⟩ := Option.isSome_iff_exists.mp hkey
  have hL : lookupKV "Link" (setKV "Link" (st.link_base ++ cpu_id) proc) =
      some (st.link_base ++ cpu_id) := lookupKV_setKV_self _ _ _
  have hself : lookupKV cpu_id
      (setKV cpu_id (setKV "Link" (st.link_base ++ cpu_id) proc) st.processors) =
      some (setKV "Link" (st.link_base ++ cpu_id) proc) := lookupKV_setKV_self _ _ _
  unfold update_one
  simp only [hproc]
  cases hu : lookupKV "Updated" (setKV "Link" (st.link_base ++ cpu_id) proc) with
  | some s =>
    simp only [hu]
    cases hd : dateFromIso s with
    | none =>
      simp only [hd]
      exact ⟨_, hself, hL⟩
    | some d =>
      simp only [hd]
      by_cases hfresh : today < d + 7
      · simp only [if_pos hfresh]
        cases hn : lookupKV "Name" (setKV "Link" (st.link_base ++ cpu_id) proc) with
        | none =>
          simp only [hn]
          exact ⟨_, hself, hL⟩
        | some name =>
          simp only [hn]
          exact ⟨_, hself, hL⟩
      · simp only [if_neg hfresh]
        unfold fetch_and_merge
        cases hf : fetch_html (net (st.link_base ++ cpu_id)) with
        | error e =>
          simp only [hf]
          exact ⟨_, hself, hL⟩
        | ok body =>
          simp only [hf]
          exact update_dict_keeps_link _ _ _ _ _ _ hattr hself hL
  | none =>
    simp only [hu]
    unfold fetch_and_merge
    cases hf : fetch_html (net (st.link_base ++ cpu_id)) with
    | error e =>
      simp only [hf]
      exact ⟨_, hself, hL⟩
    | ok body =>
      simp only [hf]
      exact update_dict_keeps_link _ _ _ _ _ _ hattr hself hL

/-- Witness for C8 at a concrete input: the skip branch (record fresh at
today = 100) still stores the canonical link. -/
theorem claim_C8_witness :
    ∃ proc', lookupKV "1" (update_one ⟨[("1", [("Name", "A"), ("Updated", "99")])],
        [("Name", fun _ => some "A")], "u", false⟩ "1"
        (fun _ => ⟨200, some "p"⟩) 100).state.processors = some proc' ∧
      lookupKV "Link" proc' = some "u1" :=
  claim_C8_link_always_stored
    ⟨[("1", [("Name", "A"), ("Updated", "99")])], [("Name", fun _ => some "A")], "u", false⟩
    "1" (fun _ => ⟨200, some "p"⟩) 100 rfl (by intro h; simp at h)

/-- C4: per-attribute failure isolation in the merge: if one registered
extractor misses its pattern on a page, that attribute becomes the placeholder
"-", every other registered attribute whose extractor succeeds is still updated
(trimmed) from the same page, the "Updated" stamp is still written and the merge
completes without an exception. -/
theorem claim_C4_pattern_miss_isolated (st : CPUList) (cpu_id text : String) (today : Nat)
    (proc : Record) (nm k : String) (fk : Extractor)
    (hnodup : (st.attributes.map Prod.fst).Nodup)
    (hproc : lookupKV cpu_id st.processors = some proc)
    (hname : lookupKV "Name" proc = some nm)
    (htext : text ≠ "")
    (hmem : (k, fk) ∈ st.attributes)
    (hku : k ≠ "Updated")
    (hfail : fk text = none) :
    (update_dict st cpu_id (some text) today).err = none ∧
    ∃ proc',
      lookupKV cpu_id (update_dict st cpu_id (some text) today).state.processors = some proc' ∧
      lookupKV k proc' = some "-" ∧
      (∀ k' f' v, (k', f') ∈ st.attributes → k' ≠ "Updated" → f' text = some v →
        lookupKV k' proc' = some (pyStrip v)) ∧
      lookupKV "Updated" proc' = some (dateToIso today) := by
  obtain ⟨nn, hx⟩ := Option.isSome_iff_exists.mp
    (extractLoop_keeps_isSome st.attributes (st.link_base ++ cpu_id) text proc "Name"
      (by rw [hname]; rfl))
  simp only [update_dict, if_neg htext, hproc, hname, hx]
  refine ⟨trivial, _, lookupKV_setKV_self _ _ _, ?_, ?_, lookupKV_setKV_self _ _ _⟩
  · rw [lookupKV_setKV_ne hku, extractLoop_lookup_mem hnodup hmem]
    simp [extractResult, hfail]
  · intro k' f' v hmem' hk' hv
    rw [lookupKV_setKV_ne hk', extractLoop_lookup_mem hnodup hmem']
    simp [extractResult, hv]

/-- Witness for C4 at a concrete input: the "TDP" extractor misses, "TDP"
becomes "-", and "Updated" is still stamped. -/
theorem claim_C4_witness :
    (update_dict ⟨[("1", [("Name", "A")])],
        [("Name", fun _ => some "A"), ("TDP", fun _ => none)], "u", false⟩
      "1" (some "page") 5).err = none ∧
    ∃ proc',
      lookupKV "1" (update_dict ⟨[("1", [("Name", "A")])],
          [("Name", fun _ => some "A"), ("TDP", fun _ => none)], "u", false⟩
        "1" (some "page") 5).state.processors = some proc' ∧
      lookupKV "TDP" proc' = some "-" ∧
      lookupKV "Updated" proc' = some (dateToIso 5) := by
  obtain ⟨herr, proc', hp, hdash, hothers, hupd⟩ :=
    claim_C4_pattern_miss_isolated
      ⟨[("1", [("Name", "A")])], [("Name", fun _ => some "A"), ("TDP", fun _ => none)], "u", false⟩
      "1" "page" 5 [("Name", "A")] "A" "TDP" (fun _ => none)
      (by decide) rfl rfl (by decide)
      (List.Mem.tail _ (List.Mem.head _)) (by decide) rfl
  exact ⟨herr, proc', hp, hdash, hupd⟩

/-- C6: if the display name extracted from a page differs from the stored one,
the mismatch is logged as an anomaly, but the merge still proceeds: no exception,
the changed flag is set, and "Updated" is still stamped with today's date. -/
theorem claim_C6_name_mismatch_nonfatal (st : CPUList) (cpu_id text : String) (today : Nat)
    (proc : Record) (oldName v : String) (f : Extractor)
    (hnodup : (st.attributes.map Prod.fst).Nodup)
    (hproc : lookupKV cpu_id st.processors = some proc)
    (hname : lookupKV "Name" proc = some oldName)
    (htext : text ≠ "")
    (hmem : ("Name", f) ∈ st.attributes)
    (hv : f text = some v)
    (hdiff : pyStrip v ≠ oldName) :
    (update_dict st cpu_id (some text) today).err = none ∧
    Event.nameMismatch (pyStrip v) oldName cpu_id ∈ (update_dict st cpu_id (some text) today).events ∧
    (update_dict st cpu_id (some text) today).state.changed_something = true ∧
    ∃ proc',
      lookupKV cpu_id (update_dict st cpu_id (some text) today).state.processors = some proc' ∧
      lookupKV "Updated" proc' = some (dateToIso today) := by
  have hx : lookupKV "Name"
      (extractLoop st.attributes (st.link_base ++ cpu_id) text proc).1 = some (pyStrip v) := by
    rw [extractLoop_lookup_mem hnodup hmem]
    simp [extractResult, hv]
  simp only [update_dict, if_neg htext, hproc, hname, hx]
  refine ⟨trivial, ?_, trivial, _, lookupKV_setKV_self _ _ _, lookupKV_setKV_self _ _ _⟩
  rw [if_pos (Ne.symm hdiff)]
  simp [List.mem_append]

/-- Witness for C6 at a concrete input: stored name "A", extracted name "B";
the mismatch is logged and the record is still stamped. -/
theorem claim_C6_witness :
    (update_dict ⟨[("1", [("Name", "A")])], [("Name", fun _ => some "B")], "u", false⟩
      "1" (some "p") 5).err = none ∧
    Event.nameMismatch "B" "A" "1" ∈ (update_dict ⟨[("1", [("Name", "A")])],
        [("Name", fun _ => some "B")], "u", false⟩ "1" (some "p") 5).events ∧
    (update_dict ⟨[("1", [("Name", "A")])], [("Name", fun _ => some "B")], "u", false⟩
      "1" (some "p") 5).state.changed_something = true := by
  obtain ⟨herr, hmem, hch, _⟩ :=
    claim_C6_name_mismatch_nonfatal
      ⟨[("1", [("Name", "A")])], [("Name", fun _ => some "B")], "u", false⟩
      "1" "p" 5 [("Name", "A")] "A" "B" (fun _ => some "B")
      (by decide) rfl rfl (by decide) (List.Mem.head _) rfl (by decide)
  exact ⟨herr, hmem, hch⟩

theorem bulk_err_cases (st : CPUList) (net : String → HttpResponse) (today : Nat) :
    (bulk_crawl_and_write st net today).err = none ∨
    (bulk_crawl_and_write st net today).err =
      (runAll net today st (st.processors.map Prod.fst)).err ∨
    (bulk_crawl_and_write st net today).err = some Err.printError ∨
    (bulk_crawl_and_write st net today).err = some Err.writeError := by
  unfold bulk_crawl_and_write
  cases herr : (runAll net today st (st.processors.map Prod.fst)).err with
  | some e => simp [herr]
  | none =>
    cases hp : print_table ((runAll net today st (st.processors.map Prod.fst)).state.attributes.map
        Prod.fst) (runAll net today st (st.processors.map Prod.fst)).state.processors with
    | none => simp [herr, hp]
    | some lines =>
      simp only [herr, hp]
      by_cases hch : (runAll net today st (st.processors.map Prod.fst)).state.changed_something
      · simp only [hch, if_true]
        cases hw : write_csv ((runAll net today st (st.processors.map Prod.fst)).state.attributes.map
            Prod.fst ++ ["Link", "Updated"])
            (runAll net today st (st.processors.map Prod.fst)).state.processors with
        | none => simp [hw]
        | some tbl => simp [hw]
      · simp [hch]

theorem bulk_events_of_crawl_err (st : CPUList) (net : String → HttpResponse) (today : Nat)
    (e : Err) (herr : (runAll net today st (st.processors.map Prod.fst)).err = some e) :
    (bulk_crawl_and_write st net today).err = some e ∧
    (bulk_crawl_and_write st net today).events =
      (runAll net today st (st.processors.map Prod.fst)).events := by
  unfold bulk_crawl_and_write
  simp [herr]

/-- C5 (amended): a payload-read failure is soft — `fetch_html` returns the
no-content value and the coordinator then skips the merge for that record
without raising — whereas a non-success HTTP status is a hard failure raising an
exception which is not caught anywhere: when a run ends with an `httpError`, the
console table is never printed and the CSV is never written, so the remaining
run (other records' pending updates included) is aborted, not only that record's
update. -/
theorem claim_C5_soft_hard_failures :
    (∀ resp : HttpResponse, resp.status < 400 → resp.payload = none →
      fetch_html resp = Except.ok none) ∧
    (∀ resp : HttpResponse, 400 ≤ resp.status →
      fetch_html resp = Except.error (Err.httpError resp.status)) ∧
    (∀ (st : CPUList) (cpu_id link : String) (net : String → HttpResponse) (today : Nat),
      fetch_html (net link) = Except.ok none →
      fetch_and_merge st cpu_id link net today = ⟨st, none, [Event.fetched link]⟩) ∧
    (∀ (st : CPUList) (net : String → HttpResponse) (today : Nat) (status : Nat),
      (bulk_crawl_and_write st net today).err = some (Err.httpError status) →
      (∀ lines, Event.printedTable lines ∉ (bulk_crawl_and_write st net today).events) ∧
      (∀ tbl, Event.wroteCsv tbl ∉ (bulk_crawl_and_write st net today).events)) := by
  refine ⟨?_, ?_, ?_, ?_⟩
  · intro resp hlt hpay
    unfold fetch_html
    rw [if_neg (by omega), hpay]
  · intro resp hge
    unfold fetch_html
    rw [if_pos hge]
  · intro st cpu_id link net today hf
    unfold fetch_and_merge
    rw [hf]
    rfl
  · intro st net today status herr
    have hcrawl : (runAll net today st (st.processors.map Prod.fst)).err =
        some (Err.httpError status) := by
      rcases bulk_err_cases st net today with h | h | h | h
      · rw [h] at herr; cases herr
      · rw [herr] at h; exact h.symm
      · rw [h] at herr; cases herr
      · rw [h] at herr; cases herr
    have hev := (bulk_events_of_crawl_err st net today _ hcrawl).2
    constructor
    · intro lines hmem
      rw [hev] at hmem
      have := runAll_no_output net today st (st.processors.map Prod.fst) _ hmem
      simp [isOutputEvent] at this
    · intro tbl hmem
      rw [hev] at hmem
      have := runAll_no_output net today st (st.processors.map Prod.fst) _ hmem
      simp [isOutputEvent] at this

/-- C5 counterexample to the claim as stated: with two identifiers where only
the first gets a non-success status, the exception is not "caught by the
coordinator, aborting that record's update but not others": the whole run
aborts — the second record never merges (the trace stops at the first fetch)
and no table is printed, no file written. -/
theorem claim_C5_counterexample :
    (bulk_crawl_and_write
        ⟨[("1", [("Name", "A")]), ("2", [("Name", "B")])],
          [("Name", fun _ => some "A")], "u", false⟩
        (fun url => if url = "u1" then ⟨500, some "x"⟩ else ⟨200, some "p"⟩)
        100).err = some (Err.httpError 500) ∧
    (bulk_crawl_and_write
        ⟨[("1", [("Name", "A")]), ("2", [("Name", "B")])],
          [("Name", fun _ => some "A")], "u", false⟩
        (fun url => if url = "u1" then ⟨500, some "x"⟩ else ⟨200, some "p"⟩)
        100).events = [Event.fetched "u1"] ∧
    lookupKV "2" (bulk_crawl_and_write
        ⟨[("1", [("Name", "A")]), ("2", [("Name", "B")])],
          [("Name", fun _ => some "A")], "u", false⟩
        (fun url => if url = "u1" then ⟨500, some "x"⟩ else ⟨200, some "p"⟩)
        100).state.processors = some [("Name", "B")] := by
  refine ⟨rfl, rfl, rfl⟩

/-- Witness for C5 (amended) at concrete inputs: a 200-status response with an
unreadable payload yields no content and a clean skip; a 500-status response is
a hard error and the run produces no output events. -/
theorem claim_C5_witness :
    fetch_html ⟨200, none⟩ = Except.ok none ∧
    fetch_html ⟨500, some "x"⟩ = Except.error (Err.httpError 500) ∧
    fetch_and_merge ⟨[("1", [("Name", "A")])], [], "u", false⟩ "1" "u1"
      (fun _ => ⟨200, none⟩) 100 =
      ⟨⟨[("1", [("Name", "A")])], [], "u", false⟩, none, [Event.fetched "u1"]⟩ ∧
    (∀ lines, Event.printedTable lines ∉ (bulk_crawl_and_write
        ⟨[("1", [("Name", "A")])], [("Name", fun _ => some "A")], "u", false⟩
        (fun _ => ⟨500, some "x"⟩) 100).events) :=
  ⟨claim_C5_soft_hard_failures.1 ⟨200, none⟩ (by decide) rfl,
   claim_C5_soft_hard_failures.2.1 ⟨500, some "x"⟩ (by decide),
   claim_C5_soft_hard_failures.2.2.1 _ "1" "u1" (fun _ => ⟨200, none⟩) 100 rfl,
   fun lines => (claim_C5_soft_hard_failures.2.2.2
      ⟨[("1", [("Name", "A")])], [("Name", fun _ => some "A")], "u", false⟩
      (fun _ => ⟨500, some "x"⟩) 100 500 rfl).1 lines⟩

theorem bulk_structure (st : CPUList) (net : String → HttpResponse) (today : Nat)
    (herr : (bulk_crawl_and_write st net today).err = none) :
    (bulk_crawl_and_write st net today).state =
      (runAll net today st (st.processors.map Prod.fst)).state ∧
    ∃ lines,
      ((bulk_crawl_and_write st net today).state.changed_something = false ∧
        (bulk_crawl_and_write st net today).events =
          (runAll net today st (st.processors.map Prod.fst)).events ++
            [Event.printedTable lines]) ∨
      ((bulk_crawl_and_write st net today).state.changed_something = true ∧
        ∃ tbl, (bulk_crawl_and_write st net today).events =
          (runAll net today st (st.processors.map Prod.fst)).events ++
            [Event.printedTable lines, Event.wroteCsv tbl]) := by
  cases herr0 : (runAll net today st (st.processors.map Prod.fst)).err with
  | some e =>
    exfalso
    have h := (bulk_events_of_crawl_err st net today e herr0).1
    rw [herr] at h
    cases h
  | none =>
    unfold bulk_crawl_and_write at herr ⊢
    simp only [herr0] at herr ⊢
    cases hp : print_table
        ((runAll net today st (st.processors.map Prod.fst)).state.attributes.map Prod.fst)
        (runAll net today st (st.processors.map Prod.fst)).state.processors with
    | none => simp [hp] at herr
    | some lines =>
      by_cases hch : (runAll net today st (st.processors.map Prod.fst)).state.changed_something
      · simp only [hch, if_true] at herr ⊢
        cases hw : write_csv
            ((runAll net today st (st.processors.map Prod.fst)).state.attributes.map Prod.fst ++
              ["Link", "Updated"])
            (runAll net today st (st.processors.map Prod.fst)).state.processors with
        | none => simp [hp, hw] at herr
        | some tbl =>
          exact ⟨rfl, lines, Or.inr ⟨hch, tbl, by simp⟩⟩
      · simp only [hch, if_false, Bool.false_eq_true, ite_false] at herr ⊢
        exact ⟨trivial, lines, Or.inl ⟨trivial, rfl⟩⟩

/-- C3 (amended): after a completed run started on a freshly initialised state,
the changed flag is true exactly when at least one identifier completed a merge
(`update_dict` ran to completion on a non-absent, non-empty page body — the
code treats an empty body like an absent one); the CSV is written exactly when
the flag is true; and any CSV-write event is preceded by the console-table
print event. -/
theorem claim_C3_changed_flag_write (st : CPUList) (net : String → HttpResponse) (today : Nat)
    (hinit : st.changed_something = false)
    (herr : (bulk_crawl_and_write st net today).err = none) :
    ((bulk_crawl_and_write st net today).state.changed_something = true ↔
      ∃ id, Event.merged id ∈ (bulk_crawl_and_write st net today).events) ∧
    ((∃ tbl, Event.wroteCsv tbl ∈ (bulk_crawl_and_write st net today).events) ↔
      (bulk_crawl_and_write st net today).state.changed_something = true) ∧
    (∀ (i : Nat) (tbl : List (List String)),
      (bulk_crawl_and_write st net today).events[i]? = some (Event.wroteCsv tbl) →
      ∃ (j : Nat) (lines : List String), j < i ∧
        (bulk_crawl_and_write st net today).events[j]? = some (Event.printedTable lines)) := by
  obtain ⟨hstate, lines, hcase⟩ := bulk_structure st net today herr
  have hch0 := runAll_changed net today st (st.processors.map Prod.fst)
  rw [hinit, Bool.false_or] at hch0
  have hnoout := runAll_no_output net today st (st.processors.map Prod.fst)
  rcases hcase with ⟨hch, hev⟩ | ⟨hch, tbl, hev⟩
  · have hany : (runAll net today st (st.processors.map Prod.fst)).events.any
        isMergedEvent = false := by
      rw [← hch0, ← hstate]
      exact Bool.eq_false_iff.mpr (by rw [hch]; simp)
    refine ⟨?_, ?_, ?_⟩
    · rw [hch]
      constructor
      · intro h; cases h
      · rintro ⟨id, hmem⟩
        rw [hev, List.mem_append] at hmem
        rcases hmem with hmem | hmem
        · have htrue : (runAll net today st (st.processors.map Prod.fst)).events.any
              isMergedEvent = true := List.any_eq_true.mpr ⟨_, hmem, rfl⟩
          rw [hany] at htrue
          cases htrue
        · simp at hmem
    · rw [hch]
      constructor
      · rintro ⟨tbl, hmem⟩
        rw [hev, List.mem_append] at hmem
        rcases hmem with hmem | hmem
        · have := hnoout _ hmem
          simp [isOutputEvent] at this
        · simp at hmem
      · intro h; cases h
    · intro i tbl hget
      exfalso
      have hmem := List.getElem?_mem hget
      rw [hev, List.mem_append] at hmem
      rcases hmem with hmem | hmem
      · have := hnoout _ hmem
        simp [isOutputEvent] at this
      · simp at hmem
  · have hany : (runAll net today st (st.processors.map Prod.fst)).events.any
        isMergedEvent = true := by
      rw [← hch0, ← hstate, hch]
    refine ⟨?_, ?_, ?_⟩
    · rw [hch]
      constructor
      · intro _
        obtain ⟨e, hmem, hm⟩ := List.any_eq_true.mp hany
        cases e with
        | merged id => exact ⟨id, by rw [hev, List.mem_append]; exact Or.inl hmem⟩
        | patternError a b => cases hm
        | nameMismatch a b c => cases hm
        | skippedFresh a => cases hm
        | fetched a => cases hm
        | printedTable a => cases hm
        | wroteCsv a => cases hm
      · intro _; rfl
    · rw [hch]
      exact ⟨fun _ => rfl, fun _ => ⟨tbl, by rw [hev, List.mem_append]; right; simp⟩⟩
    · intro i tbl' hget
      set E := (runAll net today st (st.processors.map Prod.fst)).events with hE
      refine ⟨E.length, lines, ?_, ?_⟩
      · rcases Nat.lt_trichotomy i E.length with hlt | heq | hgt
        · exfalso
          rw [hev, List.getElem?_append_left (by omega)] at hget
          have hmem := List.getElem?_mem hget
          have := hnoout _ hmem
          simp [isOutputEvent] at this
        · exfalso
          subst heq
          rw [hev, List.getElem?_append_right (le_refl _)] at hget
          simp at hget
        · exact hgt
      · rw [hev, List.getElem?_append_right (Nat.le_refl _)]
        simp

/-- C3 counterexample to the claim as stated: a successful fetch returning an
empty page body is a non-absent body on which `update_dict` runs, yet the run
completes with the changed flag still false and no CSV write — refuting
"changed iff update_dict ran on a non-absent page body". -/
theorem claim_C3_counterexample :
    fetch_html ⟨200, some ""⟩ = Except.ok (some "") ∧
    (bulk_crawl_and_write ⟨[("1", [("Name", "A")])], [("Name", fun _ => some "A")], "u", false⟩
        (fun _ => ⟨200, some ""⟩) 100).err = none ∧
    (bulk_crawl_and_write ⟨[("1", [("Name", "A")])], [("Name", fun _ => some "A")], "u", false⟩
        (fun _ => ⟨200, some ""⟩) 100).events =
      [Event.fetched "u1", Event.printedTable ["Name ", "A    "]] ∧
    (bulk_crawl_and_write ⟨[("1", [("Name", "A")])], [("Name", fun _ => some "A")], "u", false⟩
        (fun _ => ⟨200, some ""⟩) 100).state.changed_something = false ∧
    (∀ tbl, Event.wroteCsv tbl ∉ (bulk_crawl_and_write ⟨[("1", [("Name", "A")])],
        [("Name", fun _ => some "A")], "u", false⟩ (fun _ => ⟨200, some ""⟩) 100).events) := by
  refine ⟨rfl, rfl, rfl, rfl, ?_⟩
  intro tbl h
  have hev : (bulk_crawl_and_write ⟨[("1", [("Name", "A")])],
      [("Name", fun _ => some "A")], "u", false⟩ (fun _ => ⟨200, some ""⟩) 100).events =
      [Event.fetched "u1", Event.printedTable ["Name ", "A    "]] := rfl
  rw [hev] at h
  simp at h

/-- Witness for C3 (amended) at a concrete completed run: one identifier merges,
so the flag drives both the existence of a merged event and the CSV write. -/
theorem claim_C3_witness :
    (∃ id, Event.merged id ∈ (bulk_crawl_and_write ⟨[("1", [("Name", "A")])],
        [("Name", fun _ => some "A")], "u", false⟩ (fun _ => ⟨200, some "page"⟩) 100).events) ∧
    (∃ tbl, Event.wroteCsv tbl ∈ (bulk_crawl_and_write ⟨[("1", [("Name", "A")])],
        [("Name", fun _ => some "A")], "u", false⟩ (fun _ => ⟨200, some "page"⟩) 100).events) :=
  ⟨(claim_C3_changed_flag_write ⟨[("1", [("Name", "A")])],
      [("Name", fun _ => some "A")], "u", false⟩ (fun _ => ⟨200, some "page"⟩) 100
      rfl rfl).1.mp rfl,
   (claim_C3_changed_flag_write ⟨[("1", [("Name", "A")])],
      [("Name", fun _ => some "A")], "u", false⟩ (fun _ => ⟨200, some "page"⟩) 100
      rfl rfl).2.1.mpr rfl⟩

section TraverseLemmas

variable {α β : Type}

theorem traverseOpt_isSome (f : α → Option β) (l : List α)
    (h : ∀ x ∈ l, (f x).isSome = true) : (traverseOpt f l).isSome = true := by
  induction l with
  | nil => rfl
  | cons x xs ih =>
    unfold traverseOpt
    obtain ⟨y, hy⟩ := Option.isSome_iff_exists.mp (h x (List.mem_cons_self x xs))
    obtain ⟨ys, hys⟩ := Option.isSome_iff_exists.mp (ih (fun z hz => h z (List.mem_cons_of_mem x hz)))
    rw [hy, hys]
    rfl

theorem traverseOpt_eq_none (f : α → Option β) (l : List α) (x : α)
    (hx : x ∈ l) (hfx : f x = none) : traverseOpt f l = none := by
  induction l with
  | nil => cases hx
  | cons z zs ih =>
    unfold traverseOpt
    rcases List.mem_cons.mp hx with heq | htl
    · subst heq
      rw [hfx]
    · rw [ih htl]
      cases f z <;> rfl

theorem isSome_of_traverseOpt (f : α → Option β) (l : List α)
    (h : (traverseOpt f l).isSome = true) : ∀ x ∈ l, (f x).isSome = true := by
  induction l with
  | nil => intro x hx; cases hx
  | cons z zs ih =>
    intro x hx
    unfold traverseOpt at h
    cases hz : f z with
    | none => rw [hz] at h; simp at h
    | some y =>
      rw [hz] at h
      cases hzs : traverseOpt f zs with
      | none => rw [hzs] at h; simp at h
      | some ys =>
        rcases List.mem_cons.mp hx with heq | htl
        · subst heq; rw [hz]; rfl
        · exact ih (by rw [hzs]; rfl) x htl

end TraverseLemmas

/-- C10 counterexample to the claim as stated: with an empty column list and an
empty record mapping, `print_table` does not raise — it prints one blank header
line — so "raises whenever the record mapping is empty" is false as stated. -/
theorem claim_C10_counterexample :
    print_table ([] : List String) ([] : List (String × Record)) = some [""] := rfl

/-- C10 (amended): `print_table` raises whenever at least one column is printed
and the record mapping is empty, or some record is missing some printed column;
it completes only when every record defines every printed column, and with a
nonempty mapping that precondition also suffices (with no columns at all it
prints a blank header line instead of raising). -/
theorem claim_C10_print_table_exceptions :
    (∀ hdr : List String, hdr ≠ [] →
      print_table hdr ([] : List (String × Record)) = none) ∧
    (∀ (hdr : List String) (procs : List (String × Record)) (p : String × Record) (k : String),
      p ∈ procs → k ∈ hdr → lookupKV k p.2 = none → print_table hdr procs = none) ∧
    (∀ (hdr : List String) (procs : List (String × Record)),
      (print_table hdr procs).isSome = true →
      ∀ p ∈ procs, ∀ k ∈ hdr, (lookupKV k p.2).isSome = true) ∧
    (∀ (hdr : List String) (procs : List (String × Record)), procs ≠ [] →
      (∀ p ∈ procs, ∀ k ∈ hdr, (lookupKV k p.2).isSome = true) →
      (print_table hdr procs).isSome = true) := by
  refine ⟨?_, ?_, ?_, ?_⟩
  · intro hdr h
    cases hdr with
    | nil => exact absurd rfl h
    | cons k tl => rfl
  · intro hdr procs p k hp hk hnone
    have hcw : colWidth k procs = none := by
      unfold colWidth
      rw [traverseOpt_eq_none _ _ p hp (by rw [hnone]; rfl)]
    unfold print_table
    rw [traverseOpt_eq_none _ _ k hk hcw]
  · intro hdr procs h p hp k hk
    unfold print_table at h
    cases h1 : traverseOpt (fun key => colWidth key procs) hdr with
    | none => rw [h1] at h; simp at h
    | some widths =>
      rw [h1] at h
      cases h2 : traverseOpt (fun q => traverseOpt (fun key => lookupKV key q.2) hdr) procs with
      | none => rw [h2] at h; simp at h
      | some rows =>
        have hrow := isSome_of_traverseOpt _ _ (by rw [h2]; rfl) p hp
        exact isSome_of_traverseOpt _ _ hrow k hk
  · intro hdr procs hne hall
    have hw : ∀ k ∈ hdr, (colWidth k procs).isSome = true := by
      intro k hk
      unfold colWidth
      cases procs with
      | nil => exact absurd rfl hne
      | cons q qs =>
        obtain ⟨lq, hlq⟩ := Option.isSome_iff_exists.mp (hall q (List.mem_cons_self q qs) k hk)
        have hqs : (traverseOpt (fun p => (lookupKV k p.2).map String.length) qs).isSome = true :=
          traverseOpt_isSome _ _ (fun p hp => by
            obtain ⟨v, hv⟩ := Option.isSome_iff_exists.mp
              (hall p (List.mem_cons_of_mem q hp) k hk)
            rw [hv]; rfl)
        obtain ⟨ls, hls⟩ := Option.isSome_iff_exists.mp hqs
        unfold traverseOpt
        rw [hlq, hls]
        rfl
    unfold print_table
    obtain ⟨widths, hwid⟩ := Option.isSome_iff_exists.mp (traverseOpt_isSome _ _ hw)
    rw [hwid]
    have hrows : (traverseOpt (fun q => traverseOpt (fun key => lookupKV key q.2) hdr)
        procs).isSome = true :=
      traverseOpt_isSome _ _ (fun p hp => traverseOpt_isSome _ _ (fun k hk => hall p hp k hk))
    obtain ⟨rows, hr⟩ := Option.isSome_iff_exists.mp hrows
    rw [hr]
    rfl

/-- Witness for C10 (amended) at concrete inputs: one printed column with an
empty mapping raises, a record missing the column raises, and a fully defined
nonempty mapping prints. -/
theorem claim_C10_witness :
    print_table ["A"] ([] : List (String × Record)) = none ∧
    print_table ["A"] [("1", ([] : Record))] = none ∧
    (lookupKV "A" (("1", [("A", "x")]) : String × Record).2).isSome = true ∧
    (print_table ["A"] [("1", [("A", "x")])]).isSome = true := by
  refine ⟨?_, ?_, ?_, ?_⟩
  · exact claim_C10_print_table_exceptions.1 ["A"] (by decide)
  · exact claim_C10_print_table_exceptions.2.1 ["A"] [("1", [])] ("1", []) "A"
      (List.Mem.head _) (List.Mem.head _) rfl
  · exact claim_C10_print_table_exceptions.2.2.1 ["A"] [("1", [("A", "x")])] (by rfl)
      ("1", [("A", "x")]) (List.Mem.head _) "A" (List.Mem.head _)
  · exact claim_C10_print_table_exceptions.2.2.2 ["A"] [("1", [("A", "x")])] (by decide)
      (by intro p hp k hk
          rcases List.mem_singleton.mp hp with rfl
          rcases List.mem_singleton.mp hk with rfl
          rfl)

section RoundTripLemmas

theorem hasKey_iff_mem_keys {α : Type} {k : String} {l : List (String × α)} :
    hasKey k l = true ↔ k ∈ l.map Prod.fst := by
  induction l with
  | nil => simp [hasKey, lookupKV]
  | cons hd tl ih =>
    obtain ⟨k0, v0⟩ := hd
    by_cases h : k0 = k
    · subst h
      simp [hasKey_cons]
    · rw [hasKey_cons, if_neg h]
      simp only [List.map_cons, List.mem_cons]
      rw [ih]
      constructor
      · exact Or.inr
      · rintro (hc | hc)
        · exact absurd hc.symm h
        · exact hc

theorem hasKey_congr {α β : Type} {l1 : List (String × α)} {l2 : List (String × β)}
    (h : l1.map Prod.fst = l2.map Prod.fst) (k : String) : hasKey k l1 = hasKey k l2 := by
  by_cases hk : k ∈ l2.map Prod.fst
  · rw [hasKey_iff_mem_keys.mpr hk, hasKey_iff_mem_keys.mpr (by rw [h]; exact hk)]
  · have h1 : hasKey k l1 = false := by
      rw [← Bool.not_eq_true]
      intro hc
      exact hk (by rw [← h]; exact hasKey_iff_mem_keys.mp hc)
    have h2 : hasKey k l2 = false := by
      rw [← Bool.not_eq_true]
      intro hc
      exact hk (hasKey_iff_mem_keys.mp hc)
    rw [h1, h2]

theorem lookupKV_some_mem {α : Type} {k : String} {v : α} {l : List (String × α)}
    (h : lookupKV k l = some v) : (k, v) ∈ l := by
  induction l with
  | nil => cases h
  | cons hd tl ih =>
    obtain ⟨k0, v0⟩ := hd
    rw [lookupKV_cons] at h
    by_cases hk : k0 = k
    · rw [if_pos hk] at h
      obtain rfl := Option.some.injEq .. ▸ h
      subst hk
      exact List.Mem.head _
    · rw [if_neg hk] at h
      exact List.Mem.tail _ (ih h)

theorem string_drop_append (a b : String) : (a ++ b).drop a.length = b := by
  rw [String.drop_eq]
  have hd : (a ++ b).data = a.data ++ b.data := String.data_append a b
  rw [hd]
  have hl : a.length = a.data.length := rfl
  rw [hl, List.drop_left]

theorem idxOf?_spec {x : String} {l : List String} (h : x ∈ l) :
    ∃ i, idxOf? x l = some i ∧ l.get? i = some x := by
  induction l with
  | nil => cases h
  | cons y ys ih =>
    by_cases hy : y = x
    · subst hy
      exact ⟨0, by simp [idxOf?], rfl⟩
    · rcases List.mem_cons.mp h with heq | htl
      · exact absurd heq.symm hy
      · obtain ⟨i, hi, hg⟩ := ih htl
        refine ⟨i + 1, ?_, ?_⟩
        · unfold idxOf?
          rw [if_neg hy, hi]
          rfl
        · simpa using hg

theorem foldl_setKV_lookup_not_mem {ps : List (String × String)} {k : String}
    (h : k ∉ ps.map Prod.fst) (rec : Record) :
    lookupKV k (ps.foldl (fun r p => setKV p.1 p.2 r) rec) = lookupKV k rec := by
  induction ps generalizing rec with
  | nil => rfl
  | cons hd tl ih =>
    obtain ⟨k0, v0⟩ := hd
    have hk : k ≠ k0 := fun hh => h (by simp [hh])
    have htl : k ∉ tl.map Prod.fst := fun hh => h (by simp [hh])
    rw [List.foldl_cons, ih htl, lookupKV_setKV_ne hk]

theorem foldl_setKV_lookup_mem {ps : List (String × String)}
    (hnodup : (ps.map Prod.fst).Nodup) {k v : String} (hmem : (k, v) ∈ ps) (rec : Record) :
    lookupKV k (ps.foldl (fun r p => setKV p.1 p.2 r) rec) = some v := by
  induction ps generalizing rec with
  | nil => cases hmem
  | cons hd tl ih =>
    obtain ⟨k0, v0⟩ := hd
    rw [List.map_cons] at hnodup
    rcases List.mem_cons.mp hmem with heq | htl
    · cases heq
      have hk : k ∉ tl.map Prod.fst := (List.nodup_cons.mp hnodup).1
      rw [List.foldl_cons, foldl_setKV_lookup_not_mem hk, lookupKV_setKV_self]
    · rw [List.foldl_cons]
      exact ih (List.nodup_cons.mp hnodup).2 htl _

theorem applyRow_lookup (header : List String) (f : String → String) (rec : Record)
    (hnodup : header.Nodup) {k : String} (hk : k ∈ header) :
    lookupKV k (applyRow header (header.map f) rec) = some (f k) := by
  unfold applyRow
  have hz : header.zip (header.map f) = header.map (fun x => (x, f x)) := by
    clear hk hnodup
    induction header with
    | nil => rfl
    | cons x xs ih => simp [List.zip_cons_cons, ih]
  rw [hz]
  have hkeys : (header.map (fun x => (x, f x))).map Prod.fst = header := by
    rw [List.map_map]
    exact List.map_id header
  apply foldl_setKV_lookup_mem
  · rw [hkeys]; exact hnodup
  · exact List.mem_map.mpr ⟨k, hk, rfl⟩

end RoundTripLemmas

theorem write_rows_spec {header : List String} :
    ∀ {ps : List (String × Record)} {rows : List (List String)},
      traverseOpt (fun p =>
        if p.2.all (fun kv => decide (kv.1 ∈ header)) then some (csvRow header p.2)
        else none) ps = some rows →
      rows = ps.map (fun p => csvRow header p.2) ∧ ∀ p ∈ ps, ∀ kv ∈ p.2, kv.1 ∈ header := by
  intro ps
  induction ps with
  | nil =>
    intro rows h
    cases h
    exact ⟨rfl, fun p hp => absurd hp (List.not_mem_nil p)⟩
  | cons q qs ih =>
    intro rows h
    unfold traverseOpt at h
    by_cases hq : q.2.all (fun kv => decide (kv.1 ∈ header)) = true
    · rw [if_pos hq] at h
      cases ht : traverseOpt (fun p =>
          if p.2.all (fun kv => decide (kv.1 ∈ header)) then some (csvRow header p.2)
          else none) qs with
      | none => rw [ht] at h; cases h
      | some rows' =>
        rw [ht] at h
        cases h
        obtain ⟨hrows, hkeys⟩ := ih ht
        refine ⟨by rw [List.map_cons, hrows], ?_⟩
        intro p hp kv hkv
        rcases List.mem_cons.mp hp with rfl | htl
        · have := List.all_eq_true.mp hq kv hkv
          exact of_decide_eq_true this
        · exact hkeys p htl kv hkv
    · rw [if_neg hq] at h
      cases h
  
theorem write_csv_some {header : List String} {ps : List (String × Record)}
    {table : List (List String)} (h : write_csv header ps = some table) :
    table = header :: ps.map (fun p => csvRow header p.2) ∧
    ∀ p ∈ ps, ∀ kv ∈ p.2, kv.1 ∈ header := by
  unfold write_csv at h
  cases ht : traverseOpt (fun p =>
      if p.2.all (fun kv => decide (kv.1 ∈ header)) then some (csvRow header p.2)
      else none) ps with
  | none => rw [ht] at h; cases h
  | some rows =>
    rw [ht] at h
    cases h
    obtain ⟨hrows, hkeys⟩ := write_rows_spec ht
    exact ⟨by rw [hrows], hkeys⟩

theorem prefillStep_csvRow (header : List String) (lb : String) (li : Nat)
    (hli : header.get? li = some "Link") (seed : List (String × Record))
    (id : String) (rec : Record) (hlink : lookupKV "Link" rec = some (lb ++ id)) :
    prefillStep header lb li seed (csvRow header rec) =
      if hasKey id seed then
        some (setKV id (applyRow header (csvRow header rec) ((lookupKV id seed).getD [])) seed)
      else some seed := by
  have hrowget : (csvRow header rec).get? li = some (lb ++ id) := by
    unfold csvRow
    rw [List.get?_map, hli]
    simp [hlink]
  have hlen : (csvRow header rec).length ≤ header.length := by
    unfold csvRow
    rw [List.length_map]
  unfold prefillStep
  rw [hrowget]
  simp only [string_drop_append]
  by_cases hin : hasKey id seed = true
  · rw [if_pos hin, if_pos hlen, if_pos hin]
  · rw [if_neg hin, if_neg hin]

theorem prefill_fold_spec (header : List String) (lb : String) (li : Nat)
    (hnodupH : header.Nodup) (hli : header.get? li = some "Link") :
    ∀ (ps seed : List (String × Record)),
      (ps.map Prod.fst).Nodup →
      (∀ p ∈ ps, lookupKV "Link" p.2 = some (lb ++ p.1)) →
      ∃ seed2,
        foldRowsOpt (prefillStep header lb li) seed
          (ps.map (fun p => csvRow header p.2)) = some seed2 ∧
        seed2.map Prod.fst = seed.map Prod.fst ∧
        (∀ id, id ∉ ps.map Prod.fst → lookupKV id seed2 = lookupKV id seed) ∧
        (∀ p ∈ ps, hasKey p.1 seed = true →
          ∃ recF, lookupKV p.1 seed2 = some recF ∧
            ∀ h ∈ header, lookupKV h recF = some ((lookupKV h p.2).getD "")) := by
  intro ps
  induction ps with
  | nil =>
    intro seed _ _
    exact ⟨seed, rfl, rfl, fun id _ => rfl, fun p hp => absurd hp (List.not_mem_nil p)⟩
  | cons p0 ps' ih =>
    intro seed hnodupP hlinks
    obtain ⟨id, rec⟩ := p0
    rw [List.map_cons] at hnodupP
    have hid_not : id ∉ ps'.map Prod.fst := (List.nodup_cons.mp hnodupP).1
    have hnodup' : (ps'.map Prod.fst).Nodup := (List.nodup_cons.mp hnodupP).2
    have hlinks' : ∀ p ∈ ps', lookupKV "Link" p.2 = some (lb ++ p.1) :=
      fun p hp => hlinks p (List.mem_cons_of_mem _ hp)
    have hstep := prefillStep_csvRow header lb li hli seed id rec
      (hlinks (id, rec) (List.mem_cons_self _ _))
    by_cases hin : hasKey id seed = true
    · rw [if_pos hin] at hstep
      obtain ⟨seed2, hfold, hkeys2, hframe, hclause⟩ :=
        ih (setKV id (applyRow header (csvRow header rec)
          ((lookupKV id seed).getD [])) seed) hnodup' hlinks'
      have hkeys1 : (setKV id (applyRow header (csvRow header rec)
          ((lookupKV id seed).getD [])) seed).map Prod.fst = seed.map Prod.fst :=
        keys_setKV_of_hasKey _ _ _ hin
      refine ⟨seed2, ?_, ?_, ?_, ?_⟩
      · rw [List.map_cons]
        unfold foldRowsOpt
        rw [hstep]
        exact hfold
      · rw [hkeys2, hkeys1]
      · intro id2 hid2
        have hne : id2 ≠ id := by
          intro hh
          exact hid2 (by rw [hh]; exact List.mem_cons_self _ _)
        have hnotin : id2 ∉ ps'.map Prod.fst := by
          intro hh
          exact hid2 (by rw [List.map_cons]; exact List.mem_cons_of_mem _ hh)
        rw [hframe id2 hnotin, lookupKV_setKV_ne hne]
      · intro p hp hkeyp
        rcases List.mem_cons.mp hp with heq | htl
        · cases heq
          refine ⟨applyRow header (csvRow header rec) ((lookupKV id seed).getD []), ?_, ?_⟩
          · rw [hframe id hid_not, lookupKV_setKV_self]
          · intro h hh
            exact applyRow_lookup header _ _ hnodupH hh
        · have hkeyp1 : hasKey p.1 (setKV id (applyRow header (csvRow header rec)
              ((lookupKV id seed).getD [])) seed) = true := by
            rw [hasKey_congr hkeys1 p.1]
            exact hkeyp
          exact hclause p htl hkeyp1
    · rw [if_neg hin] at hstep
      obtain ⟨seed2, hfold, hkeys2, hframe, hclause⟩ := ih seed hnodup' hlinks'
      refine ⟨seed2, ?_, hkeys2, ?_, ?_⟩
      · rw [List.map_cons]
        unfold foldRowsOpt
        rw [hstep]
        exact hfold
      · intro id2 hid2
        have hnotin : id2 ∉ ps'.map Prod.fst := by
          intro hh
          exact hid2 (by rw [List.map_cons]; exact List.mem_cons_of_mem _ hh)
        exact hframe id2 hnotin
      · intro p hp hkeyp
        rcases List.mem_cons.mp hp with heq | htl
        · cases heq
          exact absurd hkeyp hin
        · exact hclause p htl hkeyp

/-- C2: round trip — writing the record mapping with `write_csv` (registered
attribute columns in registry order, then "Link", then "Updated") and prefilling
a fresh store with `prefill_with_csv` succeeds, adds no identifiers beyond the
seed (rows whose identifier, recovered by stripping the `link_base` prefix from
the "Link" cell, is not seeded are silently dropped), and reproduces every
previously persisted attribute value exactly on every seeded identifier.  The
hypotheses — distinct column names, distinct identifiers, canonical "Link"
values — hold for any state the program itself builds. -/
theorem claim_C2_write_prefill_roundtrip (attrNames : List String)
    (ps seed : List (String × Record)) (lb : String) (table : List (List String))
    (hnodupH : (attrNames ++ ["Link", "Updated"]).Nodup)
    (hnodupP : (ps.map Prod.fst).Nodup)
    (hlinks : ∀ p ∈ ps, lookupKV "Link" p.2 = some (lb ++ p.1))
    (hw : write_csv (attrNames ++ ["Link", "Updated"]) ps = some table) :
    ∃ seed2, prefill_with_csv (some table) seed lb = some seed2 ∧
      seed2.map Prod.fst = seed.map Prod.fst ∧
      (∀ p ∈ ps, hasKey p.1 seed = true →
        ∃ recF, lookupKV p.1 seed2 = some recF ∧
          ∀ k v, lookupKV k p.2 = some v → lookupKV k recF = some v) := by
  obtain ⟨htable, hkeyscsv⟩ := write_csv_some hw
  subst htable
  have hmemLink : "Link" ∈ attrNames ++ ["Link", "Updated"] := by simp
  obtain ⟨li, hidx, hget⟩ := idxOf?_spec hmemLink
  obtain ⟨seed2, hfold, hkeys2, hframe, hclause⟩ :=
    prefill_fold_spec (attrNames ++ ["Link", "Updated"]) lb li hnodupH hget ps seed
      hnodupP hlinks
  refine ⟨seed2, ?_, hkeys2, ?_⟩
  · have hred : prefill_with_csv (some ((attrNames ++ ["Link", "Updated"]) ::
        List.map (fun p => csvRow (attrNames ++ ["Link", "Updated"]) p.2) ps)) seed lb =
        match idxOf? "Link" (attrNames ++ ["Link", "Updated"]) with
        | none => none
        | some link_index =>
          foldRowsOpt (prefillStep (attrNames ++ ["Link", "Updated"]) lb link_index) seed
            (List.map (fun p => csvRow (attrNames ++ ["Link", "Updated"]) p.2) ps) := rfl
    rw [hred, hidx]
    exact hfold
  · intro p hp hkey
    obtain ⟨recF, hrecF, hcols⟩ := hclause p hp hkey
    refine ⟨recF, hrecF, ?_⟩
    intro k v hkv
    have hkmem : k ∈ attrNames ++ ["Link", "Updated"] :=
      hkeyscsv p hp (k, v) (lookupKV_some_mem hkv)
    have hcol := hcols k hkmem
    rw [hkv] at hcol
    exact hcol

/-- Witness for C2 at a concrete input: one record is written and read back onto
a fresh seed; the persisted "Name" and "Updated" values are reproduced and no
identifier is added. -/
theorem claim_C2_witness :
    write_csv ["Name", "Link", "Updated"]
        [("1", [("Name", "A"), ("Link", "u1"), ("Updated", "7")])] =
      some [["Name", "Link", "Updated"], ["A", "u1", "7"]] ∧
    ∃ seed2,
      prefill_with_csv (some [["Name", "Link", "Updated"], ["A", "u1", "7"]])
        [("1", [("Name", "S")])] "u" = some seed2 ∧
      seed2.map Prod.fst = ["1"] ∧
      ∃ recF, lookupKV "1" seed2 = some recF ∧
        lookupKV "Name" recF = some "A" ∧ lookupKV "Updated" recF = some "7" := by
  obtain ⟨seed2, hpre, hkeys, hcl⟩ :=
    claim_C2_write_prefill_roundtrip ["Name"]
      [("1", [("Name", "A"), ("Link", "u1"), ("Updated", "7")])]
      [("1", [("Name", "S")])] "u"
      [["Name", "Link", "Updated"], ["A", "u1", "7"]]
      (by decide) (by decide)
      (by
        intro p hp
        rcases List.mem_singleton.mp hp with rfl
        rfl)
      rfl
  obtain ⟨recF, hrecF, hvals⟩ := hcl ("1", [("Name", "A"), ("Link", "u1"), ("Updated", "7")])
      (List.Mem.head _) rfl
  exact ⟨rfl, seed2, hpre, by rw [hkeys]; rfl, recF, hrecF,
    hvals "Name" "A" rfl, hvals "Updated" "7" rfl⟩

/-- C7: merge (`update_dict`) with an absent page body is a no-op: the state (so
every attribute of every record, and the changed flag) is unchanged, no
exception is raised and nothing is logged, so no "Updated" date is stamped. -/
theorem claim_C7_merge_absent_noop (st : CPUList) (cpu_id : String) (today : Nat) :
    update_dict st cpu_id none today = ⟨st, none, []⟩ := rfl

/-- C9: merge (`update_dict`) treats a zero-length page body exactly like an
absent one (Python truthiness of `response_text`): the state, including every
attribute, the "Updated" field and the changed flag, is untouched. -/
theorem claim_C9_merge_empty_like_absent (st : CPUList) (cpu_id : String) (today : Nat) :
    update_dict st cpu_id (some "") today = update_dict st cpu_id none today ∧
    update_dict st cpu_id (some "") today = ⟨st, none, []⟩ := ⟨rfl, rfl⟩

/-- C1: in `update_one`, an identifier whose record has an "Updated" date with
date + 7 strictly later than today never invokes the fetcher, while an identifier
with no "Updated" date, or with a date such that date + 7 is not later than
today, invokes the fetcher exactly once. -/
theorem claim_C1_staleness_fetch_count (st : CPUList) (cpu_id : String)
    (net : String → HttpResponse) (today : Nat) (proc : Record)
    (hproc : lookupKV cpu_id st.processors = some proc) :
    ((∃ s d, lookupKV "Updated" proc = some s ∧ dateFromIso s = some d ∧ today < d + 7) →
      countFetched (update_one st cpu_id net today).events = 0) ∧
    ((lookupKV "Updated" proc = none ∨
        (∃ s d, lookupKV "Updated" proc = some s ∧ dateFromIso s = some d ∧ ¬today < d + 7)) →
      countFetched (update_one st cpu_id net today).events = 1) := by
  have hup : lookupKV "Updated" (setKV "Link" (st.link_base ++ cpu_id) proc) =
      lookupKV "Updated" proc := lookupKV_setKV_ne (by decide) _ _
  constructor
  · rintro ⟨s, d, hs, hd, hlt⟩
    unfold update_one
    rw [hproc]
    simp only [hup, hs, hd, if_pos hlt]
    cases hn : lookupKV "Name" (setKV "Link" (st.link_base ++ cpu_id) proc) with
    | none => rfl
    | some name => rfl
  · intro hcase
    unfold update_one
    rw [hproc]
    rcases hcase with hnone | ⟨s, d, hs, hd, hge⟩
    · simp only [hup, hnone]
      exact fetch_and_merge_countFetched _ _ _ _ _
    · simp only [hup, hs, hd, if_neg hge]
      exact fetch_and_merge_countFetched _ _ _ _ _

/-- Witness for C1 at concrete inputs: a record updated yesterday (99, today
100) is skipped with zero fetches; a record with no "Updated" date is fetched
exactly once. -/
theorem claim_C1_witness :
    countFetched (update_one ⟨[("1", [("Name", "A"), ("Updated", "99")])], [], "u", false⟩
      "1" (fun _ => ⟨200, some "p"⟩) 100).events = 0 ∧
    countFetched (update_one ⟨[("1", [("Name", "A")])], [], "u", false⟩
      "1" (fun _ => ⟨200, some "p"⟩) 100).events = 1 :=
  ⟨(claim_C1_staleness_fetch_count ⟨[("1", [("Name", "A"), ("Updated", "99")])], [], "u", false⟩
      "1" (fun _ => ⟨200, some "p"⟩) 100 [("Name", "A"), ("Updated", "99")] rfl).1
      ⟨"99", 99, rfl, rfl, by decide⟩,
   (claim_C1_staleness_fetch_count ⟨[("1", [("Name", "A")])], [], "u", false⟩
      "1" (fun _ => ⟨200, some "p"⟩) 100 [("Name", "A")] rfl).2 (Or.inl rfl)⟩

end Processors
